import Mathlib

/-!
Verification of kafkainspect.py (Kafka topic inspector and deduplication
tool) against its specification.

The development shallowly embeds the deduplication core of the program:

* fingerprint extraction (hash_payload is abstracted as a parameter; the
  SHA-256 digest itself is not modelled bit-level, every theorem about the
  scan loop is universally quantified over the hash function, so it holds
  for SHA-256 in particular);
* get_field_from_json (JSON dotted-path extraction, lines 40-55);
* the duplicate store, both the in-memory set backend and the SQLite
  backend (lines 310-316 and 358-369);
* the scan loop of main (lines 334-410);
* the pre-scan control flow of main (lines 265-332), as an event trace.

Record key and value bytes are modelled as lists of natural numbers, so
that byte sequences which are not valid UTF-8 are representable.  JSON
parsing (json.loads) is not re-implemented; a record value carries both
its raw bytes and the outcome json.loads would have on those bytes: a
parsed value, a json.JSONDecodeError (which the source catches), or a
UnicodeDecodeError from decoding the bytes (which the source does not
catch).  Theorems about parsed values take that outcome as input.  JSON
numbers are modelled as integers (floating-point serialization is outside
the embedding; no claim depends on it).
-/

namespace KafkaInspect

/-! ## String ordering

Python compares str values lexicographically by code point; json.dumps
with sort_keys=True sorts object keys with exactly this order.  Lean's
built-in String order does not reduce in the kernel, so we model the
code-point lexicographic order directly on the character list. -/

/-- Strict lexicographic order on character lists (Python str comparison). -/
def strLtB : List Char → List Char → Bool
  | [], [] => false
  | [], _ :: _ => true
  | _ :: _, [] => false
  | a :: as, b :: bs => if a < b then true else if b < a then false else strLtB as bs

/-- Non-strict key order used for sorting: a comes no later than b. -/
def keyLeB (a b : String) : Bool := ! strLtB b.data a.data

/-! ## Sorting of key/value pairs

json.dumps(d, sort_keys=True) serializes dict items sorted by key.  We
model the sort as an insertion sort that compares keys only; it is generic
in the value type. -/

/-- Insert a pair into a key-sorted list of pairs, keeping it sorted. -/
def insertByKey (p : String × α) : List (String × α) → List (String × α)
  | [] => [p]
  | q :: rest => if keyLeB p.1 q.1 then p :: q :: rest else q :: insertByKey p rest

/-- Sort a list of key/value pairs by key (models sorted(d.items())). -/
def sortByKey : List (String × α) → List (String × α)
  | [] => []
  | p :: rest => insertByKey p (sortByKey rest)

/-- The field lists that json.dumps(-, sort_keys=True) emits are sorted by
the key order. -/
def KeySorted {α : Type} (l : List (String × α)) : Prop :=
  List.Pairwise (fun p q => keyLeB p.1 q.1 = true) l

/-! ## JSON values -/

/-- JSON values as produced by json.loads: null, booleans, numbers
(integers; see the file comment), strings, arrays, and objects.  An
object is a list of key/value pairs; json.loads returns a Python dict,
whose keys are unique (a later duplicate key overwrites the earlier one),
so parse results always satisfy the well-formedness predicate wf below. -/
inductive Json where
  | null : Json
  | bool (b : Bool) : Json
  | num (n : Int) : Json
  | str (s : String) : Json
  | arr (elems : List Json) : Json
  | obj (fields : List (String × Json)) : Json

/-- First value bound to a key, models dict lookup (data.get(key)). -/
def lookupKey (k : String) : List (String × Json) → Option Json
  | [] => none
  | (k', v) :: rest => if k' = k then some v else lookupKey k rest

/-- Whether a key occurs in a field list. -/
def hasKeyB (k : String) : List (String × Json) → Bool
  | [] => false
  | (k', _) :: rest => if k' = k then true else hasKeyB k rest

/-- All keys of a field list are distinct (a Python dict invariant). -/
def keysNodupB : List (String × Json) → Bool
  | [] => true
  | (k, _) :: rest => !hasKeyB k rest && keysNodupB rest

mutual
/-- Well-formedness: every object in the value has distinct keys.  Every
value returned by json.loads satisfies this, because Python dicts cannot
hold two bindings of one key. -/
def wf : Json → Bool
  | .null => true
  | .bool _ => true
  | .num _ => true
  | .str _ => true
  | .arr xs => wfList xs
  | .obj fs => keysNodupB fs && wfFields fs
def wfList : List Json → Bool
  | [] => true
  | x :: xs => wf x && wfList xs
def wfFields : List (String × Json) → Bool
  | [] => true
  | (_, v) :: fs => wf v && wfFields fs
end

mutual
/-- Key-order canonicalization: recursively sort every object's fields by
key.  Two parse results are structurally equal JSON values (same
objects/arrays/scalars regardless of object key order) exactly when their
canonicalizations coincide. -/
def canon : Json → Json
  | .null => .null
  | .bool b => .bool b
  | .num n => .num n
  | .str s => .str s
  | .arr xs => .arr (canonList xs)
  | .obj fs => .obj (sortByKey (canonFields fs))
def canonList : List Json → List Json
  | [] => []
  | x :: xs => canon x :: canonList xs
def canonFields : List (String × Json) → List (String × Json)
  | [] => []
  | (k, v) :: fs => (k, canon v) :: canonFields fs
end

/-! ## Serialization (json.dumps with sort_keys=True)

json.dumps uses default separators (", " between items, ": " after keys)
and ensure_ascii=True, escaping control and non-ASCII characters. -/

/-- Four-digit lowercase hex, as used in a JSON \uXXXX escape. -/
def hex4 (n : Nat) : String :=
  let d := fun (m : Nat) =>
    if m < 10 then Char.ofNat (48 + m) else Char.ofNat (87 + m)
  String.mk [d (n / 4096 % 16), d (n / 256 % 16), d (n / 16 % 16), d (n % 16)]

/-- Escape one character the way json.dumps (ensure_ascii=True) does. -/
def escapeChar (c : Char) : String :=
  if c = '"' then "\\\""
  else if c = '\\' then "\\\\"
  else if c = '\n' then "\\n"
  else if c = '\t' then "\\t"
  else if c = '\r' then "\\r"
  else if c.toNat = 8 then "\\b"
  else if c.toNat = 12 then "\\f"
  else if c.toNat < 32 || c.toNat > 126 then
    if c.toNat < 65536 then "\\u" ++ hex4 c.toNat
    else
      let m := c.toNat - 65536
      "\\u" ++ hex4 (55296 + m / 1024) ++ "\\u" ++ hex4 (56320 + m % 1024)
  else String.singleton c

/-- JSON string literal with quotes and escapes. -/
def quoteStr (s : String) : String :=
  "\"" ++ String.join (s.data.map escapeChar) ++ "\""

/-- Join serialized items with the default json.dumps item separator. -/
def joinComma (parts : List String) : String := String.intercalate ", " parts

mutual
/-- json.dumps(data, sort_keys=True): canonical serialization with object
keys sorted (line 53 of the source). -/
def dumps : Json → String
  | .null => "null"
  | .bool b => if b then "true" else "false"
  | .num n => toString n
  | .str s => quoteStr s
  | .arr xs => "[" ++ joinComma (dumpsList xs) ++ "]"
  | .obj fs =>
      "\x7b" ++ joinComma ((sortByKey (dumpsFields fs)).map
        (fun p => quoteStr p.1 ++ ": " ++ p.2)) ++ "\x7d"
def dumpsList : List Json → List String
  | [] => []
  | x :: xs => dumps x :: dumpsList xs
def dumpsFields : List (String × Json) → List (String × String)
  | [] => []
  | (k, v) :: fs => (k, dumps v) :: dumpsFields fs
end

/-! ## Dotted-path traversal (get_field_from_json, lines 40-55) -/

/-- The object fields of a value, none when the value is not an object
(isinstance(data, dict) test on line 46). -/
def Json.objFields : Json → Option (List (String × Json))
  | .obj fs => some fs
  | _ => none

/-- Whether the value is JSON null (which json.loads maps to Python None). -/
def Json.isNull : Json → Bool
  | .null => true
  | _ => false

/-- The traversal loop of get_field_from_json (lines 44-51): walk the key
list; a non-object or a missing key yields none; a step that reaches JSON
null also yields none, because json.loads represents null as Python None
and line 50 tests data is None. -/
def getPath : Json → List String → Option Json
  | j, [] => some j
  | j, k :: rest =>
    match j.objFields with
    | none => none
    | some fs =>
      match lookupKey k fs with
      | none => none
      | some v => if v.isNull then none else getPath v rest

/-- Helper of splitDots: accumulate the current segment. -/
def splitAux : List Char → List Char → List String
  | [], acc => [String.mk acc.reverse]
  | c :: cs, acc =>
    if c = '.' then String.mk acc.reverse :: splitAux cs []
    else splitAux cs (c :: acc)

/-- Python field_path.split of the dot character (line 44): always returns
at least one segment; an empty string splits to one empty segment. -/
def splitDots (s : String) : List String := splitAux s.data []

/-- get_field_from_json on an already parsed value: traverse the dotted
path, then re-serialize the result with json.dumps(data, sort_keys=True). -/
def get_field_parsed (j : Json) (field_path : String) : Option String :=
  (getPath j (splitDots field_path)).map dumps

/-- The dotted path traverses objects successfully down to the terminal
value v: at every step the current value is an object holding the next
key.  This renders the traversal notion the specification speaks about. -/
def resolvesTo : Json → List String → Json → Prop
  | j, [], v => j = v
  | j, k :: rest, v =>
    ∃ fs w, j.objFields = some fs ∧ lookupKey k fs = some w ∧ resolvesTo w rest v

/-- The UTF-8 encoding of one character. -/
def utf8Bytes (c : Char) : List Nat :=
  let n := c.toNat
  if n < 128 then [n]
  else if n < 2048 then [192 + n / 64, 128 + n % 64]
  else if n < 65536 then [224 + n / 4096, 128 + n / 64 % 64, 128 + n % 64]
  else [240 + n / 262144, 128 + n / 4096 % 64, 128 + n / 64 % 64, 128 + n % 64]

/-- The UTF-8 encoding of a string, as used by str.encode on line 53. -/
def strToBytes (s : String) : List Nat := (s.data.map utf8Bytes).flatten

/-- What json.loads does on a byte sequence: return a value; raise
json.JSONDecodeError on decodable bytes that are not valid JSON (line 54
catches this); or raise UnicodeDecodeError when the bytes themselves do
not decode under the detected encoding (line 54 does NOT catch this,
because UnicodeDecodeError is a ValueError but not a JSONDecodeError). -/
inductive LoadResult where
  | val (j : Json) : LoadResult
  | jsonDecodeError : LoadResult
  | unicodeDecodeError : LoadResult

/-- A record value as bytes together with the outcome json.loads would
have on those bytes. -/
structure RawValue where
  raw : List Nat
  loads : LoadResult

/-- get_field_from_json (lines 40-55) on an optional record value.  Two
uncaught abort paths exist, both yielding the error result: a Python None
value (a tombstone record), on which json.loads raises TypeError, and a
present value whose bytes do not decode, on which json.loads raises
UnicodeDecodeError — the except clause on line 54 catches only
JSONDecodeError and AttributeError.  A caught JSONDecodeError yields ok
none, and on a parsed value the traversal result is serialized and
UTF-8-encoded (the dumps output is pure ASCII since ensure_ascii escapes
everything else). -/
def get_field_from_json : Option RawValue → String → Except Unit (Option (List Nat))
  | none, _ => .error ()
  | some v, field_path =>
    match v.loads with
    | .unicodeDecodeError => .error ()
    | .jsonDecodeError => .ok none
    | .val j => .ok ((get_field_parsed j field_path).map strToBytes)

/-! ## Duplicate store (lines 310-316 and 358-369)

Tokens are the hex digests produced by hash_payload; the store only ever
compares them for equality, so they are modelled as strings. -/

/-- In-memory backend (lines 366-369): membership test on the seen set,
inserting on a miss.  The Python set is modelled as the list of inserted
tokens; membership is its only observable. -/
def mem_check_and_insert (seen : List String) (h : String) : Bool × List String :=
  if h ∈ seen then (true, seen) else (false, h :: seen)

/-- State of the SQLite store: the rows of the seen table, plus the rows a
reader of the database file would observe (the committed state). -/
structure SqliteDB where
  table : List String
  disk : List String

/-- Opening the store (lines 314-316): connect to the file and CREATE
TABLE IF NOT EXISTS, so the table holds exactly the rows previously
committed to the file (empty for a fresh file). -/
def openDB (rows : List String) : SqliteDB := { table := rows, disk := rows }

/-- SQLite backend (lines 358-364): SELECT the token; on a miss, INSERT it
and immediately commit, making the new row durable before returning. -/
def sqlite_check_and_insert (db : SqliteDB) (h : String) : Bool × SqliteDB :=
  if h ∈ db.table then (true, db)
  else (false, { table := h :: db.table, disk := h :: db.table })

/-- The store backend chosen at startup (line 313: branch on args.sqlite). -/
inductive Store where
  | mem (seen : List String) : Store
  | sqlite (db : SqliteDB) : Store

/-- The check-and-insert capability dispatched over the backend. -/
def Store.check_and_insert : Store → String → Bool × Store
  | .mem seen, h =>
    let r := mem_check_and_insert seen h
    (r.1, .mem r.2)
  | .sqlite db, h =>
    let r := sqlite_check_and_insert db h
    (r.1, .sqlite r.2)

/-- The tokens currently recorded by the store (the seen set, or the rows
of the seen table). -/
def Store.tokens : Store → List String
  | .mem seen => seen
  | .sqlite db => db.table

/-- Durability invariant of the persistent backend: everything in the seen
table has been committed to the database file. -/
def storeDiskInv : Store → Prop
  | .mem _ => True
  | .sqlite db => db.disk = db.table

/-- Feed a sequence of tokens through a store, one check-and-insert per
token, collecting the duplicate verdicts in order. -/
def storeRun (s : Store) : List String → List Bool × Store
  | [] => ([], s)
  | t :: ts =>
    let r := s.check_and_insert t
    let rs := storeRun r.2 ts
    (r.1 :: rs.1, rs.2)

/-- Feed a token sequence through the SQLite backend alone. -/
def sqliteRun (db : SqliteDB) : List String → List Bool × SqliteDB
  | [] => ([], db)
  | t :: ts =>
    let r := sqlite_check_and_insert db t
    let rs := sqliteRun r.2 ts
    (r.1 :: rs.1, rs.2)

/-- Modelled from the claim's words, not from the source: a record is
classified duplicate exactly when some earlier record in the same run, or
a prior run for the persistent backend, produced the same token.  The
accumulator holds every token of an earlier record. -/
def specDuplicateFlags (earlier : List String) : List String → List Bool
  | [] => []
  | t :: ts => decide (t ∈ earlier) :: specDuplicateFlags (t :: earlier) ts

/-! ## Scan loop (lines 334-410) -/

/-- The --dedup-by choice (line 29): value or key. -/
inductive DedupBy where
  | value : DedupBy
  | key : DedupBy

/-- One record pulled from the source: optional key bytes, optional value
(bytes plus parse result), partition, offset, timestamp, and whether
msg.error() reports a broker error. -/
structure Message where
  key : Option (List Nat)
  value : Option RawValue
  partition : Nat
  offset : Nat
  timestamp : Int
  err : Bool

/-- The scan configuration: --field, --dedup-by, --max-messages, whether
--sqlite was given, and the rows already committed to the SQLite file (an
empty list for a freshly created file).  The output and silent options
only affect duplicate reporting, which no claim depends on, and are not
modelled. -/
structure ScanArgs where
  field : Option String
  dedup_by : DedupBy
  max_messages : Nat
  useSqlite : Bool
  initDisk : List String

/-- Payload selection (lines 344-350).  Python tests if args.field, which
is falsy for None and for the empty string; in the latter cases the
dedup_by branch runs.  In json-field mode the call can fail (see
get_field_from_json); in value and key mode it cannot. -/
def extractPayload (args : ScanArgs) (msg : Message) : Except Unit (Option (List Nat)) :=
  match args.field with
  | some f =>
    if f = "" then
      match args.dedup_by with
      | .value => .ok (msg.value.map RawValue.raw)
      | .key => .ok msg.key
    else get_field_from_json msg.value f
  | none =>
    match args.dedup_by with
    | .value => .ok (msg.value.map RawValue.raw)
    | .key => .ok msg.key

/-- Observable state of the scan loop: the store, the scanned-for-dedup
counter (count, line 334), the duplicate counter, the number of records
pulled from the source so far (one per poll that returned a record), the
per-classified-record duplicate verdicts in order, and whether an
exception aborted the loop. -/
structure ScanState where
  store : Store
  count : Nat
  duplicates : Nat
  pulled : Nat
  verdicts : List Bool
  failed : Bool

/-- The while loop of main (lines 337-404).  The message list is the
sequence of records the source would deliver; reaching its end models
poll returning None.  The budget test count < args.max_messages runs
before each poll; a record with an absent payload is skipped by the
continue on line 353, which bypasses the count increment on line 404; a
broker error or an uncaught extraction error aborts the loop. -/
def scanGo (hash : List Nat → String) (args : ScanArgs) (msgs : List Message)
    (st : ScanState) : ScanState :=
  if st.count < args.max_messages then
    match msgs with
    | [] => st
    | msg :: rest =>
      if msg.err then { st with pulled := st.pulled + 1, failed := true }
      else
        match extractPayload args msg with
        | .error _ => { st with pulled := st.pulled + 1, failed := true }
        | .ok none => scanGo hash args rest { st with pulled := st.pulled + 1 }
        | .ok (some payload) =>
          let h := hash payload
          let r := st.store.check_and_insert h
          scanGo hash args rest
            { store := r.2
              count := st.count + 1
              duplicates := st.duplicates + (if r.1 then 1 else 0)
              pulled := st.pulled + 1
              verdicts := st.verdicts ++ [r.1]
              failed := false }
  else st

/-- A full scan: build the configured store (line 313: fresh set, or the
SQLite file's committed rows) and run the loop from zero counters. -/
def scan (hash : List Nat → String) (args : ScanArgs) (msgs : List Message) : ScanState :=
  scanGo hash args msgs
    { store := if args.useSqlite then .sqlite (openDB args.initDisk) else .mem []
      count := 0
      duplicates := 0
      pulled := 0
      verdicts := []
      failed := false }

/-- The backend-independent observables of a finished scan. -/
def ScanState.obs (st : ScanState) : List Bool × Nat × Nat × Nat × Bool :=
  (st.verdicts, st.count, st.duplicates, st.pulled, st.failed)

/-! ## Pre-scan control flow of main (lines 265-332) -/

/-- Truthiness of an optional string option (None and the empty string
are falsy in Python). -/
def optTruthy : Option String → Bool
  | none => false
  | some s => decide (s ≠ "")

/-- Truthiness of the --peek option (None and 0 are falsy). -/
def peekTruthy : Option Int → Bool
  | none => false
  | some p => decide (p ≠ 0)

/-- The externally visible setup steps of main, in program order. -/
inductive Event where
  | adminClientCreated : Event
  | overviewRun : Event
  | consumerCreated : Event
  | listTopicsRun : Event
  | checkLagRun : Event
  | searchRun : Event
  | peekRun : Event
  | subscribed : Event
  | sqliteOpened : Event
  | outputOpened : Event
  | scanStarted : Event
  | exited (code : Nat) : Event
deriving DecidableEq

/-- The command-line options that drive main's pre-scan control flow. -/
structure Args where
  overview : Bool
  list_topics : Bool
  check_lag : Bool
  search : Option String
  peek : Option Int
  topic : Option String
  sqlite : Option String
  output : Option String

/-- Event trace of main before the scan loop (lines 265-332), in source
order: the overview branch returns early; otherwise the Consumer is
constructed on line 277, then each mode checks its required --topic and
calls sys.exit(1) when it is missing; the dedup path subscribes (line
308), then opens the SQLite store (lines 313-316) and the output file
(lines 321-331) when configured, and enters the scan loop. -/
def mainSetup (a : Args) : List Event :=
  if a.overview then [.adminClientCreated, .overviewRun]
  else
    .consumerCreated ::
      (if a.list_topics then [.listTopicsRun]
       else if a.check_lag then
         if optTruthy a.topic then [.checkLagRun] else [.exited 1]
       else if optTruthy a.search then
         if optTruthy a.topic then [.searchRun] else [.exited 1]
       else if peekTruthy a.peek then
         if optTruthy a.topic then [.peekRun] else [.exited 1]
       else if optTruthy a.topic then
         .subscribed ::
           ((if optTruthy a.sqlite then [.sqliteOpened] else []) ++
            (if optTruthy a.output then [.outputOpened] else []) ++
            [.scanStarted])
       else [.exited 1])

/-! ## Order lemmas for the key comparison -/

theorem strLtB_asymm : ∀ x y : List Char, strLtB x y = true → strLtB y x = false := by
  intro x
  induction x with
  | nil => intro y h; cases y <;> simp_all [strLtB]
  | cons a as ih =>
    intro y h
    cases y with
    | nil => simp [strLtB] at h
    | cons b bs =>
      simp only [strLtB] at h ⊢
      by_cases hab : a < b
      · rw [if_neg (lt_asymm hab), if_pos hab]
      · rw [if_neg hab] at h
        by_cases hba : b < a
        · rw [if_pos hba] at h; exact absurd h (by simp)
        · rw [if_neg hba] at h
          rw [if_neg hab, if_neg hba]
          exact ih bs h

theorem strLtB_conn : ∀ x y : List Char, strLtB x y = false → strLtB y x = false → x = y := by
  intro x
  induction x with
  | nil => intro y h _; cases y <;> simp_all [strLtB]
  | cons a as ih =>
    intro y h h'
    cases y with
    | nil => simp [strLtB] at h'
    | cons b bs =>
      simp only [strLtB] at h h'
      by_cases hab : a < b
      · rw [if_pos hab] at h; exact absurd h (by simp)
      · by_cases hba : b < a
        · rw [if_pos hba] at h'; exact absurd h' (by simp)
        · rw [if_neg hab, if_neg hba] at h
          have : a = b := le_antisymm (not_lt.mp hba) (not_lt.mp hab)
          rw [if_neg hba, if_neg hab] at h'
          rw [this, ih bs h h']

theorem strLtB_trans : ∀ x y z : List Char,
    strLtB x y = true → strLtB y z = true → strLtB x z = true := by
  intro x
  induction x with
  | nil =>
    intro y z h h'
    cases y with
    | nil => simp [strLtB] at h
    | cons b bs => cases z with
      | nil => simp [strLtB] at h'
      | cons c cs => simp [strLtB]
  | cons a as ih =>
    intro y z h h'
    cases y with
    | nil => simp [strLtB] at h
    | cons b bs =>
      cases z with
      | nil => simp [strLtB] at h'
      | cons c cs =>
        simp only [strLtB] at h h' ⊢
        by_cases hab : a < b
        · by_cases hbc : b < c
          · rw [if_pos (lt_trans hab hbc)]
          · rw [if_neg hbc] at h'
            by_cases hcb : c < b
            · rw [if_pos hcb] at h'; exact absurd h' (by simp)
            · have hbec : b = c := le_antisymm (not_lt.mp hcb) (not_lt.mp hbc)
              rw [if_pos (hbec ▸ hab)]
        · rw [if_neg hab] at h
          by_cases hba : b < a
          · rw [if_pos hba] at h; exact absurd h (by simp)
          · rw [if_neg hba] at h
            have haeb : a = b := le_antisymm (not_lt.mp hba) (not_lt.mp hab)
            subst haeb
            by_cases hac : a < c
            · rw [if_pos hac]
            · rw [if_neg hac] at h' ⊢
              by_cases hca : c < a
              · rw [if_pos hca] at h'; exact absurd h' (by simp)
              · rw [if_neg hca] at h' ⊢
                exact ih bs cs h h'

theorem keyLeB_total (a b : String) : keyLeB a b = true ∨ keyLeB b a = true := by
  by_cases h : strLtB b.data a.data = true
  · right
    simp only [keyLeB, Bool.not_eq_true']
    exact strLtB_asymm _ _ h
  · left
    simp only [keyLeB, Bool.not_eq_true']
    exact Bool.not_eq_true _ ▸ h

theorem keyLeB_trans (a b c : String) :
    keyLeB a b = true → keyLeB b c = true → keyLeB a c = true := by
  simp only [keyLeB, Bool.not_eq_true']
  intro hab hbc
  by_cases hca : strLtB c.data a.data = true
  · by_cases hbcd : strLtB b.data c.data = true
    · exact absurd (strLtB_trans _ _ _ hbcd hca) (by simp [hab])
    · have : b.data = c.data :=
        strLtB_conn _ _ (Bool.not_eq_true _ ▸ hbcd) hbc
      rw [← this] at hca
      exact absurd hca (by simp [hab])
  · exact Bool.not_eq_true _ ▸ hca

/-! ## Sorting lemmas -/

theorem mem_insertByKey {α : Type} (p q : String × α) (l : List (String × α)) :
    q ∈ insertByKey p l ↔ q = p ∨ q ∈ l := by
  induction l with
  | nil => simp [insertByKey]
  | cons r rest ih =>
    simp only [insertByKey]
    by_cases h : keyLeB p.1 r.1 = true
    · rw [if_pos h]; simp [List.mem_cons]
    · rw [if_neg h]
      simp only [List.mem_cons, ih]
      tauto

theorem mem_sortByKey {α : Type} (q : String × α) (l : List (String × α)) :
    q ∈ sortByKey l ↔ q ∈ l := by
  induction l with
  | nil => simp [sortByKey]
  | cons p rest ih => simp [sortByKey, mem_insertByKey, ih]

theorem insertByKey_mapVal {α β : Type} (g : α → β) (p : String × α)
    (l : List (String × α)) :
    insertByKey (p.1, g p.2) (l.map (fun kv => (kv.1, g kv.2)))
      = (insertByKey p l).map (fun kv => (kv.1, g kv.2)) := by
  induction l with
  | nil => simp [insertByKey]
  | cons r rest ih =>
    simp only [List.map_cons, insertByKey]
    by_cases h : keyLeB p.1 r.1 = true
    · rw [if_pos h, if_pos h]; simp
    · rw [if_neg h, if_neg h]; simp [ih]

theorem sortByKey_mapVal {α β : Type} (g : α → β) (l : List (String × α)) :
    sortByKey (l.map (fun kv => (kv.1, g kv.2)))
      = (sortByKey l).map (fun kv => (kv.1, g kv.2)) := by
  induction l with
  | nil => simp [sortByKey]
  | cons p rest ih =>
    simp only [List.map_cons, sortByKey, ih]
    exact insertByKey_mapVal g p (sortByKey rest)

theorem keySorted_insertByKey {α : Type} (p : String × α) (l : List (String × α))
    (hl : KeySorted l) : KeySorted (insertByKey p l) := by
  induction l with
  | nil => simp [insertByKey, KeySorted]
  | cons r rest ih =>
    simp only [insertByKey]
    rcases List.pairwise_cons.mp hl with ⟨hr, hrest⟩
    by_cases h : keyLeB p.1 r.1 = true
    · rw [if_pos h]
      refine List.pairwise_cons.mpr ⟨?_, hl⟩
      intro q hq
      rcases List.mem_cons.mp hq with rfl | hq'
      · exact h
      · exact keyLeB_trans _ _ _ h (hr q hq')
    · rw [if_neg h]
      refine List.pairwise_cons.mpr ⟨?_, ih hrest⟩
      intro q hq
      rcases (mem_insertByKey p q rest).mp hq with rfl | hq'
      · rcases keyLeB_total q.1 r.1 with h1 | h1
        · exact absurd h1 h
        · exact h1
      · exact hr q hq'

theorem keySorted_sortByKey {α : Type} (l : List (String × α)) :
    KeySorted (sortByKey l) := by
  induction l with
  | nil => exact List.Pairwise.nil
  | cons p rest ih => exact keySorted_insertByKey p (sortByKey rest) ih

theorem sortByKey_eq_of_sorted {α : Type} (l : List (String × α))
    (hl : KeySorted l) : sortByKey l = l := by
  induction l with
  | nil => rfl
  | cons p rest ih =>
    rcases List.pairwise_cons.mp hl with ⟨hp, hrest⟩
    simp only [sortByKey, ih hrest]
    cases rest with
    | nil => rfl
    | cons r rest' =>
      simp only [insertByKey]
      rw [if_pos (hp r (List.mem_cons_self r rest'))]

theorem sortByKey_idem {α : Type} (l : List (String × α)) :
    sortByKey (sortByKey l) = sortByKey l :=
  sortByKey_eq_of_sorted (sortByKey l) (keySorted_sortByKey l)

/-! ## Lookup lemmas -/

theorem hasKeyB_eq_isSome (k : String) (l : List (String × Json)) :
    hasKeyB k l = (lookupKey k l).isSome := by
  induction l with
  | nil => rfl
  | cons p rest ih =>
    obtain ⟨k', v⟩ := p
    simp only [hasKeyB, lookupKey]
    by_cases h : k' = k
    · rw [if_pos h, if_pos h]; rfl
    · rw [if_neg h, if_neg h]; exact ih

theorem lookupKey_mapVal (g : Json → Json) (k : String) (l : List (String × Json)) :
    lookupKey k (l.map (fun kv => (kv.1, g kv.2))) = (lookupKey k l).map g := by
  induction l with
  | nil => rfl
  | cons p rest ih =>
    obtain ⟨k', v⟩ := p
    simp only [List.map_cons, lookupKey]
    by_cases h : k' = k
    · rw [if_pos h, if_pos h]; rfl
    · rw [if_neg h, if_neg h]; exact ih

theorem hasKeyB_insertByKey (k : String) (p : String × Json) (l : List (String × Json)) :
    hasKeyB k (insertByKey p l) = if p.1 = k then true else hasKeyB k l := by
  induction l with
  | nil => simp [insertByKey, hasKeyB]
  | cons r rest ih =>
    simp only [insertByKey]
    by_cases h : keyLeB p.1 r.1 = true
    · rw [if_pos h]
      obtain ⟨pk, pv⟩ := p
      simp [hasKeyB]
    · rw [if_neg h]
      obtain ⟨rk, rv⟩ := r
      simp only [hasKeyB, ih]
      by_cases hr : rk = k
      · rw [if_pos hr, if_pos hr]
        by_cases hp : p.1 = k <;> simp [hp]
      · rw [if_neg hr, if_neg hr]

theorem hasKeyB_sortByKey (k : String) (l : List (String × Json)) :
    hasKeyB k (sortByKey l) = hasKeyB k l := by
  induction l with
  | nil => rfl
  | cons p rest ih =>
    obtain ⟨pk, pv⟩ := p
    simp only [sortByKey, hasKeyB_insertByKey, hasKeyB, ih]

theorem lookupKey_insertByKey (p : String × Json) (l : List (String × Json))
    (hp : hasKeyB p.1 l = false) (k : String) :
    lookupKey k (insertByKey p l) = lookupKey k (p :: l) := by
  induction l with
  | nil => simp [insertByKey]
  | cons r rest ih =>
    obtain ⟨rk, rv⟩ := r
    simp only [hasKeyB] at hp
    by_cases hrp : rk = p.1
    · rw [if_pos hrp] at hp; exact absurd hp (by simp)
    · rw [if_neg hrp] at hp
      simp only [insertByKey]
      by_cases h : keyLeB p.1 rk = true
      · rw [if_pos h]
      · rw [if_neg h]
        obtain ⟨pk, pv⟩ := p
        simp only [lookupKey] at *
        by_cases hrk : rk = k
        · subst hrk
          rw [if_pos rfl]
          rw [if_neg (fun hh => hrp (by simpa using hh.symm))]
          rw [if_pos rfl]
        · rw [if_neg hrk, ih hp, if_neg hrk]

theorem lookupKey_sortByKey (l : List (String × Json))
    (h : keysNodupB l = true) (k : String) :
    lookupKey k (sortByKey l) = lookupKey k l := by
  induction l with
  | nil => rfl
  | cons p rest ih =>
    obtain ⟨pk, pv⟩ := p
    simp only [keysNodupB, Bool.and_eq_true, Bool.not_eq_true'] at h
    obtain ⟨hpk, hrest⟩ := h
    simp only [sortByKey]
    rw [lookupKey_insertByKey (pk, pv) (sortByKey rest)
      (by simpa [hasKeyB_sortByKey] using hpk) k]
    simp only [lookupKey]
    by_cases hk : pk = k
    · rw [if_pos hk, if_pos hk]
    · rw [if_neg hk, if_neg hk, ih hrest]

theorem hasKeyB_mapVal (g : Json → Json) (k : String) (l : List (String × Json)) :
    hasKeyB k (l.map (fun kv => (kv.1, g kv.2))) = hasKeyB k l := by
  rw [hasKeyB_eq_isSome, hasKeyB_eq_isSome, lookupKey_mapVal]
  cases lookupKey k l <;> rfl

theorem keysNodupB_mapVal (g : Json → Json) (l : List (String × Json)) :
    keysNodupB (l.map (fun kv => (kv.1, g kv.2))) = keysNodupB l := by
  induction l with
  | nil => rfl
  | cons p rest ih =>
    obtain ⟨pk, pv⟩ := p
    simp only [List.map_cons, keysNodupB, hasKeyB_mapVal, ih]

/-! ## Induction principle for Json

The nested occurrence of List in Json calls for a bespoke induction
principle giving the inductive hypothesis for every member of an array or
object. -/

mutual
theorem jsonRecAux {P : Json → Prop}
    (h0 : P .null) (h1 : ∀ b, P (.bool b)) (h2 : ∀ n, P (.num n))
    (h3 : ∀ s, P (.str s))
    (h4 : ∀ xs, (∀ x ∈ xs, P x) → P (.arr xs))
    (h5 : ∀ fs, (∀ kv ∈ fs, P kv.2) → P (.obj fs)) : ∀ j : Json, P j
  | .null => h0
  | .bool b => h1 b
  | .num n => h2 n
  | .str s => h3 s
  | .arr xs => h4 xs (jsonRecListAux h0 h1 h2 h3 h4 h5 xs)
  | .obj fs => h5 fs (jsonRecFieldsAux h0 h1 h2 h3 h4 h5 fs)

theorem jsonRecListAux {P : Json → Prop}
    (h0 : P .null) (h1 : ∀ b, P (.bool b)) (h2 : ∀ n, P (.num n))
    (h3 : ∀ s, P (.str s))
    (h4 : ∀ xs, (∀ x ∈ xs, P x) → P (.arr xs))
    (h5 : ∀ fs, (∀ kv ∈ fs, P kv.2) → P (.obj fs)) :
    ∀ xs : List Json, ∀ x ∈ xs, P x
  | y :: ys => fun x hx =>
      Or.elim (List.mem_cons.mp hx)
        (fun he => by rw [he]; exact jsonRecAux h0 h1 h2 h3 h4 h5 y)
        (fun he => jsonRecListAux h0 h1 h2 h3 h4 h5 ys x he)
  | [] => fun x hx => absurd hx (List.not_mem_nil x)

theorem jsonRecFieldsAux {P : Json → Prop}
    (h0 : P .null) (h1 : ∀ b, P (.bool b)) (h2 : ∀ n, P (.num n))
    (h3 : ∀ s, P (.str s))
    (h4 : ∀ xs, (∀ x ∈ xs, P x) → P (.arr xs))
    (h5 : ∀ fs, (∀ kv ∈ fs, P kv.2) → P (.obj fs)) :
    ∀ fs : List (String × Json), ∀ kv ∈ fs, P kv.2
  | p :: ps => fun kv hkv =>
      Or.elim (List.mem_cons.mp hkv)
        (fun he => by rw [he]; exact jsonRecAux h0 h1 h2 h3 h4 h5 p.2)
        (fun he => jsonRecFieldsAux h0 h1 h2 h3 h4 h5 ps kv he)
  | [] => fun kv hkv => absurd hkv (List.not_mem_nil kv)
end

/-! ## Canonicalization lemmas -/

theorem canonList_eq (xs : List Json) : canonList xs = xs.map canon := by
  induction xs with
  | nil => rfl
  | cons x xs ih => simp [canonList, ih]

theorem canonFields_eq (fs : List (String × Json)) :
    canonFields fs = fs.map (fun kv => (kv.1, canon kv.2)) := by
  induction fs with
  | nil => rfl
  | cons p fs ih => obtain ⟨k, v⟩ := p; simp [canonFields, ih]

theorem dumpsList_eq (xs : List Json) : dumpsList xs = xs.map dumps := by
  induction xs with
  | nil => rfl
  | cons x xs ih => simp [dumpsList, ih]

theorem dumpsFields_eq (fs : List (String × Json)) :
    dumpsFields fs = fs.map (fun kv => (kv.1, dumps kv.2)) := by
  induction fs with
  | nil => rfl
  | cons p fs ih => obtain ⟨k, v⟩ := p; simp [dumpsFields, ih]

theorem map_map_pair {α β γ : Type} (g1 : α → β) (g2 : β → γ)
    (l : List (String × α)) :
    (l.map (fun kv => (kv.1, g1 kv.2))).map (fun kv => (kv.1, g2 kv.2))
      = l.map (fun kv => (kv.1, g2 (g1 kv.2))) := by
  induction l with
  | nil => rfl
  | cons p l ih => simp [ih]

theorem canon_objFields (j : Json) :
    (canon j).objFields = j.objFields.map (fun fs => sortByKey (canonFields fs)) := by
  cases j <;> rfl

theorem canon_isNull (j : Json) : (canon j).isNull = j.isNull := by
  cases j <;> rfl

theorem objFields_eq_some (j : Json) (fs : List (String × Json))
    (h : j.objFields = some fs) : j = .obj fs := by
  cases j <;> simp_all [Json.objFields]

/-- Serialization is insensitive to object key order: dumps sorts keys at
every level, so canonicalizing first changes nothing. -/
theorem dumps_canon : ∀ j : Json, dumps (canon j) = dumps j := by
  refine jsonRecAux rfl (fun b => rfl) (fun n => rfl) (fun s => rfl) ?_ ?_
  · intro xs ih
    simp only [canon, dumps, dumpsList_eq, canonList_eq, List.map_map]
    have hmap : List.map (dumps ∘ canon) xs = List.map dumps xs :=
      List.map_congr_left (fun x hx => ih x hx)
    rw [hmap]
  · intro fs ih
    simp only [canon, dumps]
    have key : sortByKey (dumpsFields (sortByKey (canonFields fs)))
        = sortByKey (dumpsFields fs) :=
      calc sortByKey (dumpsFields (sortByKey (canonFields fs)))
          = sortByKey ((sortByKey (canonFields fs)).map
              (fun kv => (kv.1, dumps kv.2))) := by rw [dumpsFields_eq]
        _ = (sortByKey (sortByKey (canonFields fs))).map
              (fun kv => (kv.1, dumps kv.2)) :=
            sortByKey_mapVal dumps (sortByKey (canonFields fs))
        _ = (sortByKey (canonFields fs)).map (fun kv => (kv.1, dumps kv.2)) := by
            rw [sortByKey_idem]
        _ = (sortByKey (fs.map (fun kv => (kv.1, canon kv.2)))).map
              (fun kv => (kv.1, dumps kv.2)) := by rw [canonFields_eq]
        _ = ((sortByKey fs).map (fun kv => (kv.1, canon kv.2))).map
              (fun kv => (kv.1, dumps kv.2)) := by rw [sortByKey_mapVal]
        _ = (sortByKey fs).map (fun kv => (kv.1, dumps (canon kv.2))) :=
            map_map_pair canon dumps (sortByKey fs)
        _ = (sortByKey fs).map (fun kv => (kv.1, dumps kv.2)) :=
            List.map_congr_left (fun kv hkv => by
              rw [ih kv ((mem_sortByKey kv fs).mp hkv)])
        _ = sortByKey (fs.map (fun kv => (kv.1, dumps kv.2))) :=
            (sortByKey_mapVal dumps fs).symm
        _ = sortByKey (dumpsFields fs) := by rw [dumpsFields_eq]
    rw [key]

theorem wfFields_lookup (fs : List (String × Json)) (h : wfFields fs = true)
    (k : String) (v : Json) (hv : lookupKey k fs = some v) : wf v = true := by
  induction fs with
  | nil => simp [lookupKey] at hv
  | cons p fs ih =>
    obtain ⟨k', w⟩ := p
    simp only [wfFields, Bool.and_eq_true] at h
    simp only [lookupKey] at hv
    by_cases he : k' = k
    · rw [if_pos he] at hv
      cases hv
      exact h.1
    · rw [if_neg he] at hv
      exact ih h.2 hv

/-- Core congruence for C3: traversal commutes with canonicalization.  Two
well-formed values with the same canonicalization traverse to results with
the same canonicalization (or both to absence). -/
theorem getPath_canon : ∀ (keys : List String) (j1 j2 : Json),
    wf j1 = true → wf j2 = true → canon j1 = canon j2 →
    Option.map canon (getPath j1 keys) = Option.map canon (getPath j2 keys) := by
  intro keys
  induction keys with
  | nil =>
    intro j1 j2 _ _ hc
    simpa [getPath] using hc
  | cons k rest ih =>
    intro j1 j2 h1 h2 hc
    have hobj : j1.objFields.map (fun fs => sortByKey (canonFields fs))
        = j2.objFields.map (fun fs => sortByKey (canonFields fs)) := by
      rw [← canon_objFields, ← canon_objFields, hc]
    cases hj1 : j1.objFields with
    | none =>
      cases hj2 : j2.objFields with
      | none => simp [getPath, hj1, hj2]
      | some fs2 => rw [hj1, hj2] at hobj; simp at hobj
    | some fs1 =>
      cases hj2 : j2.objFields with
      | none => rw [hj1, hj2] at hobj; simp at hobj
      | some fs2 =>
        rw [hj1, hj2] at hobj
        simp only [Option.map_some', Option.some.injEq] at hobj
        have e1 := objFields_eq_some j1 fs1 hj1
        have e2 := objFields_eq_some j2 fs2 hj2
        subst e1; subst e2
        simp only [wf, Bool.and_eq_true] at h1 h2
        have hl : (lookupKey k fs1).map canon = (lookupKey k fs2).map canon := by
          have c1 : lookupKey k (sortByKey (canonFields fs1))
              = (lookupKey k fs1).map canon := by
            rw [canonFields_eq, sortByKey_mapVal, lookupKey_mapVal,
              lookupKey_sortByKey fs1 h1.1]
          have c2 : lookupKey k (sortByKey (canonFields fs2))
              = (lookupKey k fs2).map canon := by
            rw [canonFields_eq, sortByKey_mapVal, lookupKey_mapVal,
              lookupKey_sortByKey fs2 h2.1]
          rw [← c1, ← c2, hobj]
        cases hv1 : lookupKey k fs1 with
        | none =>
          cases hv2 : lookupKey k fs2 with
          | none => simp [getPath, Json.objFields, hv1, hv2]
          | some v2 => rw [hv1, hv2] at hl; simp at hl
        | some v1 =>
          cases hv2 : lookupKey k fs2 with
          | none => rw [hv1, hv2] at hl; simp at hl
          | some v2 =>
            rw [hv1, hv2] at hl
            simp only [Option.map_some', Option.some.injEq] at hl
            have hnl : v1.isNull = v2.isNull := by
              rw [← canon_isNull v1, ← canon_isNull v2, hl]
            simp only [getPath, Json.objFields, hv1, hv2]
            by_cases hv : v1.isNull = true
            · rw [if_pos hv, if_pos (by rw [← hnl]; exact hv)]
            · rw [if_neg hv, if_neg (fun hh => hv (by rw [hnl]; exact hh))]
              exact ih v1 v2
                (wfFields_lookup fs1 h1.2 k v1 hv1)
                (wfFields_lookup fs2 h2.2 k v2 hv2) hl

/-! ## Duplicate store lemmas -/

theorem check_and_insert_fst (s : Store) (t : String) :
    (s.check_and_insert t).1 = decide (t ∈ s.tokens) := by
  cases s with
  | mem seen =>
    simp only [Store.check_and_insert, mem_check_and_insert, Store.tokens]
    by_cases h : t ∈ seen <;> simp [h]
  | sqlite db =>
    simp only [Store.check_and_insert, sqlite_check_and_insert, Store.tokens]
    by_cases h : t ∈ db.table <;> simp [h]

theorem mem_tokens_check_and_insert (s : Store) (t x : String) :
    x ∈ (s.check_and_insert t).2.tokens ↔ x = t ∨ x ∈ s.tokens := by
  cases s with
  | mem seen =>
    simp only [Store.check_and_insert, mem_check_and_insert, Store.tokens]
    by_cases h : t ∈ seen
    · rw [if_pos h]
      simp only [Store.tokens]
      constructor
      · exact Or.inr
      · rintro (rfl | hx)
        · exact h
        · exact hx
    · rw [if_neg h]
      simp [Store.tokens, List.mem_cons]
  | sqlite db =>
    simp only [Store.check_and_insert, sqlite_check_and_insert, Store.tokens]
    by_cases h : t ∈ db.table
    · rw [if_pos h]
      simp only [Store.tokens]
      constructor
      · exact Or.inr
      · rintro (rfl | hx)
        · exact h
        · exact hx
    · rw [if_neg h]
      simp [Store.tokens, List.mem_cons]

/-- A store run produces exactly the duplicate flags the specification
describes, relative to any list with the same membership as the store's
current tokens. -/
theorem storeRun_flags (ts : List String) : ∀ (s : Store) (earlier : List String),
    (∀ x, x ∈ s.tokens ↔ x ∈ earlier) →
    (storeRun s ts).1 = specDuplicateFlags earlier ts := by
  induction ts with
  | nil => intro s earlier _; rfl
  | cons t ts ih =>
    intro s earlier hmem
    simp only [storeRun, specDuplicateFlags]
    have hhead : (s.check_and_insert t).1 = decide (t ∈ earlier) := by
      rw [check_and_insert_fst]
      simp [hmem t]
    have htail := ih (s.check_and_insert t).2 (t :: earlier)
      (fun x => by rw [mem_tokens_check_and_insert, List.mem_cons, hmem x])
    rw [hhead, htail]

theorem sqliteRun_disk_inv (ts : List String) : ∀ db : SqliteDB,
    db.disk = db.table → ((sqliteRun db ts).2.disk = (sqliteRun db ts).2.table) := by
  induction ts with
  | nil => intro db h; exact h
  | cons t ts ih =>
    intro db h
    simp only [sqliteRun, sqlite_check_and_insert]
    by_cases hm : t ∈ db.table
    · rw [if_pos hm]; exact ih db h
    · rw [if_neg hm]; exact ih _ rfl

theorem sqliteRun_table_sub (ts : List String) : ∀ (db : SqliteDB) (x : String),
    x ∈ db.table → x ∈ (sqliteRun db ts).2.table := by
  induction ts with
  | nil => intro db x hx; exact hx
  | cons t ts ih =>
    intro db x hx
    simp only [sqliteRun, sqlite_check_and_insert]
    by_cases hm : t ∈ db.table
    · rw [if_pos hm]; exact ih db x hx
    · rw [if_neg hm]; exact ih _ x (List.mem_cons_of_mem t hx)

theorem sqliteRun_mem (ts : List String) : ∀ (db : SqliteDB) (t : String),
    t ∈ ts → t ∈ (sqliteRun db ts).2.table := by
  induction ts with
  | nil => intro db t ht; exact absurd ht (List.not_mem_nil t)
  | cons u ts ih =>
    intro db t ht
    simp only [sqliteRun, sqlite_check_and_insert]
    rcases List.mem_cons.mp ht with rfl | ht'
    · by_cases hm : t ∈ db.table
      · rw [if_pos hm]; exact sqliteRun_table_sub ts db t hm
      · rw [if_neg hm]
        exact sqliteRun_table_sub ts _ t (List.mem_cons_self t db.table)
    · by_cases hm : u ∈ db.table
      · rw [if_pos hm]; exact ih db t ht'
      · rw [if_neg hm]; exact ih _ t ht'

/-! ## Scan loop lemmas -/

theorem extractPayload_value_mode (args : ScanArgs) (msg : Message)
    (hf : args.field = none) (hd : args.dedup_by = DedupBy.value) :
    extractPayload args msg = .ok (msg.value.map RawValue.raw) := by
  simp [extractPayload, hf, hd]

/-- The scan loop reads only the field, dedup_by and max_messages
configuration; the store options only choose the initial store. -/
theorem scanGo_args_irrel (hash : List Nat → String) (f : Option String)
    (d : DedupBy) (m : Nat) (b1 b2 : Bool) (i1 i2 : List String) :
    ∀ (msgs : List Message) (st : ScanState),
    scanGo hash ⟨f, d, m, b1, i1⟩ msgs st = scanGo hash ⟨f, d, m, b2, i2⟩ msgs st := by
  intro msgs
  induction msgs with
  | nil => intro st; simp [scanGo]
  | cons msg rest ih =>
    intro st
    simp only [scanGo]
    have hext : extractPayload ⟨f, d, m, b1, i1⟩ msg
        = extractPayload ⟨f, d, m, b2, i2⟩ msg := rfl
    by_cases hc : st.count < m
    · rw [if_pos hc, if_pos hc]
      by_cases he : msg.err = true
      · rw [if_pos he, if_pos he]
      · rw [if_neg he, if_neg he]
        rw [← hext]
        cases hx : extractPayload ⟨f, d, m, b1, i1⟩ msg with
        | error e => rfl
        | ok o =>
          cases o with
          | none => exact ih _
          | some payload => exact ih _
    · rw [if_neg hc, if_neg hc]

/-- Bisimulation between the two backends inside the loop: starting from a
SQLite table and an in-memory set holding the same tokens, every step
produces the same observables. -/
theorem scanGo_mem_sqlite_obs (hash : List Nat → String) (args : ScanArgs) :
    ∀ (msgs : List Message) (seen dsk : List String) (count dup pulled : Nat)
      (verdicts : List Bool) (failed : Bool),
    (scanGo hash args msgs ⟨.sqlite ⟨seen, dsk⟩, count, dup, pulled, verdicts, failed⟩).obs
      = (scanGo hash args msgs ⟨.mem seen, count, dup, pulled, verdicts, failed⟩).obs := by
  intro msgs
  induction msgs with
  | nil =>
    intro seen dsk count dup pulled verdicts failed
    simp [scanGo, ScanState.obs]
  | cons msg rest ih =>
    intro seen dsk count dup pulled verdicts failed
    simp only [scanGo]
    by_cases hc : count < args.max_messages
    · rw [if_pos hc, if_pos hc]
      by_cases he : msg.err = true
      · rw [if_pos he, if_pos he]; rfl
      · rw [if_neg he, if_neg he]
        cases hx : extractPayload args msg with
        | error e => rfl
        | ok o =>
          cases o with
          | none => exact ih seen dsk count dup (pulled + 1) verdicts failed
          | some payload =>
            simp only [Store.check_and_insert, sqlite_check_and_insert,
              mem_check_and_insert]
            by_cases hm : hash payload ∈ seen
            · simp only [if_pos hm]
              exact ih seen dsk (count + 1) (dup + 1) (pulled + 1)
                (verdicts ++ [true]) false
            · simp only [if_neg hm]
              exact ih (hash payload :: seen) (hash payload :: seen)
                (count + 1) (dup + 0) (pulled + 1) (verdicts ++ [false]) false
    · rw [if_neg hc, if_neg hc]; rfl

/-- Records whose payload is absent are all skipped: they are pulled but
never advance the count, so the loop keeps running past them as long as
the budget test passes. -/
theorem scanGo_skipped (hash : List Nat → String) (args : ScanArgs) :
    ∀ (msgs : List Message) (st : ScanState),
    (∀ m ∈ msgs, m.err = false ∧ extractPayload args m = .ok none) →
    st.count < args.max_messages →
    scanGo hash args msgs st = { st with pulled := st.pulled + msgs.length } := by
  intro msgs
  induction msgs with
  | nil => intro st _ _; simp [scanGo]
  | cons msg rest ih =>
    intro st h hc
    obtain ⟨he, hx⟩ := h msg (List.mem_cons_self msg rest)
    have hne : msg.err ≠ true := by simp [he]
    simp only [scanGo, if_pos hc, if_neg hne, hx]
    rw [ih { st with pulled := st.pulled + 1 }
      (fun m hm => h m (List.mem_cons_of_mem msg hm)) hc]
    simp only [List.length_cons, ScanState.mk.injEq, true_and, and_true]
    omega

/-- When every record yields a payload, the loop scans up to its budget:
counts and pulls advance together, bounded by budget and supply. -/
theorem scanGo_present (hash : List Nat → String) (args : ScanArgs) :
    ∀ (msgs : List Message) (st : ScanState),
    (∀ m ∈ msgs, m.err = false ∧ ∃ p, extractPayload args m = .ok (some p)) →
    st.failed = false →
    (scanGo hash args msgs st).pulled
        = st.pulled + min (args.max_messages - st.count) msgs.length
    ∧ (scanGo hash args msgs st).count
        = st.count + min (args.max_messages - st.count) msgs.length
    ∧ (scanGo hash args msgs st).failed = false := by
  intro msgs
  induction msgs with
  | nil =>
    intro st _ hf
    simp [scanGo, hf]
  | cons msg rest ih =>
    intro st h hf
    obtain ⟨he, p, hx⟩ := h msg (List.mem_cons_self msg rest)
    have hne : msg.err ≠ true := by simp [he]
    by_cases hc : st.count < args.max_messages
    · simp only [scanGo, if_pos hc, if_neg hne, hx]
      obtain ⟨ihp, ihc, ihf⟩ := ih
        { store := (st.store.check_and_insert (hash p)).2
          count := st.count + 1
          duplicates := st.duplicates
            + (if (st.store.check_and_insert (hash p)).1 then 1 else 0)
          pulled := st.pulled + 1
          verdicts := st.verdicts ++ [(st.store.check_and_insert (hash p)).1]
          failed := false }
        (fun m hm => h m (List.mem_cons_of_mem msg hm)) rfl
      refine ⟨?_, ?_, ihf⟩
      · rw [ihp]; simp only [List.length_cons]; omega
      · rw [ihc]; simp only [List.length_cons]; omega
    · simp only [scanGo, if_neg hc]
      have : args.max_messages - st.count = 0 := by omega
      simp [this, hf]

/-- In value mode the whole loop state depends only on the sequence of
record value bytes. -/
theorem scanGo_value_obs (hash : List Nat → String) (args : ScanArgs)
    (hf : args.field = none) (hd : args.dedup_by = DedupBy.value) :
    ∀ (msgs1 msgs2 : List Message),
    List.Forall₂ (fun m1 m2 : Message =>
      m1.value.map RawValue.raw = m2.value.map RawValue.raw
        ∧ m1.err = false ∧ m2.err = false) msgs1 msgs2 →
    ∀ st : ScanState, scanGo hash args msgs1 st = scanGo hash args msgs2 st := by
  intro msgs1 msgs2 hrel
  induction hrel with
  | nil => intro st; rfl
  | @cons m1 m2 rest1 rest2 hm hrest ih =>
    intro st
    obtain ⟨hv, he1, he2⟩ := hm
    simp only [scanGo]
    by_cases hc : st.count < args.max_messages
    · rw [if_pos hc, if_pos hc]
      rw [he1, he2]
      simp only [Bool.false_eq_true, if_neg]
      rw [extractPayload_value_mode args m1 hf hd,
        extractPayload_value_mode args m2 hf hd, hv]
      cases m2.value.map RawValue.raw with
      | none => exact ih _
      | some payload => exact ih _
    · rw [if_neg hc, if_neg hc]

/-- The durability invariant survives one whole scan. -/
theorem scanGo_disk_inv (hash : List Nat → String) (args : ScanArgs) :
    ∀ (msgs : List Message) (st : ScanState),
    storeDiskInv st.store → storeDiskInv (scanGo hash args msgs st).store := by
  intro msgs
  induction msgs with
  | nil => intro st h; simp only [scanGo]; split <;> exact h
  | cons msg rest ih =>
    intro st h
    simp only [scanGo]
    by_cases hc : st.count < args.max_messages
    · rw [if_pos hc]
      by_cases he : msg.err = true
      · rw [if_pos he]; exact h
      · rw [if_neg he]
        cases hx : extractPayload args msg with
        | error e => exact h
        | ok o =>
          cases o with
          | none => exact ih _ h
          | some payload =>
            refine ih _ ?_
            cases hs : st.store with
            | mem seen => trivial
            | sqlite db =>
              simp only [Store.check_and_insert, sqlite_check_and_insert]
              by_cases hm : hash payload ∈ db.table
              · rw [if_pos hm]
                simpa [storeDiskInv, hs] using h
              · rw [if_neg hm]
                simp [storeDiskInv]
    · rw [if_neg hc]; exact h

/-! ## Traversal success lemmas -/

theorem isNull_eq_null (j : Json) (h : j.isNull = true) : j = .null := by
  cases j <;> simp_all [Json.isNull]

/-- A successful traversal to a non-null terminal is exactly what getPath
returns. -/
theorem getPath_resolves : ∀ (keys : List String) (j v : Json),
    resolvesTo j keys v → v.isNull = false → getPath j keys = some v := by
  intro keys
  induction keys with
  | nil =>
    intro j v h _
    simp only [resolvesTo] at h
    simp [getPath, h]
  | cons k rest ih =>
    intro j v h hv
    obtain ⟨fs, w, ho, hl, hw⟩ := h
    simp only [getPath, ho, hl]
    have hwn : w.isNull = false := by
      cases rest with
      | nil =>
        simp only [resolvesTo] at hw
        rw [hw]
        exact hv
      | cons r rs =>
        obtain ⟨fs2, w2, ho2, _, _⟩ := hw
        cases w <;> simp_all [Json.objFields, Json.isNull]
    rw [if_neg (by simp [hwn])]
    exact ih w v hw hv

/-! # Claims -/

/-- Claim C1: for any single store instance (in-memory or SQLite) the
first check-and-insert call for a token not yet in the store returns
false, the second call for the same token returns true, and a third call
still returns true; equivalently, a full run classifies a record as
duplicate exactly when some earlier record of the same run (or of a prior
run, for the persistent backend, whose file already holds the rows d)
produced the same token. -/
theorem claim1_check_and_insert_semantics (s : Store) (t : String)
    (hs : t ∉ s.tokens) (d ts : List String) :
    ((s.check_and_insert t).1 = false
      ∧ ((s.check_and_insert t).2.check_and_insert t).1 = true
      ∧ (((s.check_and_insert t).2.check_and_insert t).2.check_and_insert t).1 = true)
    ∧ (storeRun (.mem []) ts).1 = specDuplicateFlags [] ts
    ∧ (storeRun (.sqlite (openDB d)) ts).1 = specDuplicateFlags d ts := by
  refine ⟨⟨?_, ?_, ?_⟩, ?_, ?_⟩
  · rw [check_and_insert_fst]
    simp [hs]
  · rw [check_and_insert_fst]
    simp [mem_tokens_check_and_insert]
  · rw [check_and_insert_fst]
    simp [mem_tokens_check_and_insert]
  · exact storeRun_flags ts (.mem []) []
      (fun x => by simp [Store.tokens])
  · exact storeRun_flags ts (.sqlite (openDB d)) d
      (fun x => by simp [Store.tokens, openDB])

theorem claim1_witness :
    ((Store.mem []).check_and_insert "t").1 = false
    ∧ (storeRun (.mem []) ["a", "b", "a"]).1 = specDuplicateFlags [] ["a", "b", "a"] :=
  ⟨(claim1_check_and_insert_semantics (Store.mem []) "t"
      (by simp [Store.tokens]) [] ["a", "b", "a"]).1.1,
   (claim1_check_and_insert_semantics (Store.mem []) "t"
      (by simp [Store.tokens]) [] ["a", "b", "a"]).2.1⟩

/-- Claim C2 counterexample: with a budget of one message, a first record
whose payload is absent and a second record with a payload, the loop pulls
both records.  If a skipped record consumed one unit of the max-messages
budget, as the claim states, at most one record could have been pulled:
the continue on line 353 bypasses the count increment on line 404, so a
skipped record does not count toward the cap. -/
theorem claim2_counterexample :
    (scan (fun b => String.mk (b.map Char.ofNat)) ⟨none, .value, 1, false, []⟩
        [⟨none, none, 0, 0, 0, false⟩,
         ⟨none, some ⟨[118, 49], .jsonDecodeError⟩, 0, 1, 0, false⟩]).pulled = 2
    ∧ (scan (fun b => String.mk (b.map Char.ofNat)) ⟨none, .value, 1, false, []⟩
        [⟨none, none, 0, 0, 0, false⟩,
         ⟨none, some ⟨[118, 49], .jsonDecodeError⟩, 0, 1, 0, false⟩]).count = 1
    ∧ extractPayload ⟨none, .value, 1, false, []⟩ ⟨none, none, 0, 0, 0, false⟩
        = .ok none :=
  ⟨rfl, rfl, rfl⟩

/-- Claim C2 as amended: a record whose payload is absent is skipped for
dedup classification and does NOT consume a unit of the max-messages
budget; it is still pulled from the source.  With a positive budget, a
source of only absent-payload records is pulled in its entirety, however
long, and none of it is counted as scanned. -/
theorem claim2_skipped_not_budgeted (hash : List Nat → String) (args : ScanArgs)
    (msgs : List Message)
    (h : ∀ m ∈ msgs, m.err = false ∧ extractPayload args m = .ok none)
    (hpos : 0 < args.max_messages) :
    (scan hash args msgs).pulled = msgs.length ∧ (scan hash args msgs).count = 0 := by
  unfold scan
  rw [scanGo_skipped hash args msgs _ h hpos]
  exact ⟨by simp, rfl⟩

theorem claim2_witness :
    (scan (fun b => String.mk (b.map Char.ofNat)) ⟨none, .value, 5, false, []⟩
        [⟨none, none, 1, 2, 3, false⟩]).pulled = 1
    ∧ (scan (fun b => String.mk (b.map Char.ofNat)) ⟨none, .value, 5, false, []⟩
        [⟨none, none, 1, 2, 3, false⟩]).count = 0 :=
  claim2_skipped_not_budgeted (fun b => String.mk (b.map Char.ofNat)) ⟨none, .value, 5, false, []⟩
    [⟨none, none, 1, 2, 3, false⟩]
    (by intro m hm; rw [List.mem_singleton] at hm; subst hm; exact ⟨rfl, rfl⟩)
    (by decide)

/-- Claim C3: two byte sequences that parse as structurally equal JSON
values (canonicalizations coincide; key order and whitespace of the
serialized bytes are immaterial, and parse results are well formed since
Python dicts have unique keys) yield byte-identical payloads under
json-field extraction at any dotted path: both absent or both the same
canonical re-serialization. -/
theorem claim3_canonical_extraction (v1 v2 : RawValue) (field_path : String)
    (j1 j2 : Json) (hp1 : v1.loads = .val j1) (hp2 : v2.loads = .val j2)
    (h1 : wf j1 = true) (h2 : wf j2 = true) (hc : canon j1 = canon j2) :
    get_field_from_json (some v1) field_path
      = get_field_from_json (some v2) field_path := by
  simp only [get_field_from_json, hp1, hp2]
  have h := getPath_canon (splitDots field_path) j1 j2 h1 h2 hc
  simp only [get_field_parsed]
  cases e1 : getPath j1 (splitDots field_path) with
  | none =>
    cases e2 : getPath j2 (splitDots field_path) with
    | none => rfl
    | some w2 => rw [e1, e2] at h; simp at h
  | some w1 =>
    cases e2 : getPath j2 (splitDots field_path) with
    | none => rw [e1, e2] at h; simp at h
    | some w2 =>
      rw [e1, e2] at h
      simp only [Option.map_some', Option.some.injEq] at h
      simp only [Option.map_some', Option.some.injEq]
      rw [← dumps_canon w1, ← dumps_canon w2, h]

theorem claim3_witness :
    get_field_from_json
        (some ⟨[123, 34, 98, 34, 58, 50, 44, 34, 97, 34, 58, 49, 125], .val (.obj [("b", .num 2), ("a", .num 1)])⟩) "a"
      = get_field_from_json
        (some ⟨[123, 34, 97, 34, 58, 49, 44, 34, 98, 34, 58, 50, 125], .val (.obj [("a", .num 1), ("b", .num 2)])⟩) "a" :=
  claim3_canonical_extraction
    ⟨[123, 34, 98, 34, 58, 50, 44, 34, 97, 34, 58, 49, 125], .val (.obj [("b", .num 2), ("a", .num 1)])⟩
    ⟨[123, 34, 97, 34, 58, 49, 44, 34, 98, 34, 58, 50, 125], .val (.obj [("a", .num 1), ("b", .num 2)])⟩
    "a" (.obj [("b", .num 2), ("a", .num 1)]) (.obj [("a", .num 1), ("b", .num 2)])
    rfl rfl (by decide) (by decide) rfl

/-- Claim C4 counterexample: the claim promises extraction never raises
an error that aborts the scan, for every value including absent ones, but
the code has two abort paths.  On a None value (tombstone) json.loads
raises TypeError; on a present value whose bytes do not decode under the
detected encoding (for example the single byte 255) json.loads raises
UnicodeDecodeError; the except clause on line 54 catches only
JSONDecodeError and AttributeError, so in json-field mode either record
aborts the scan rather than being skipped. -/
theorem claim4_counterexample :
    get_field_from_json none "a" = .error ()
    ∧ get_field_from_json (some ⟨[255], .unicodeDecodeError⟩) "a" = .error ()
    ∧ (scan (fun b => String.mk (b.map Char.ofNat)) ⟨some "a", .value, 10, false, []⟩
        [⟨none, none, 0, 0, 0, false⟩]).failed = true
    ∧ (scan (fun b => String.mk (b.map Char.ofNat)) ⟨some "a", .value, 10, false, []⟩
        [⟨none, some ⟨[255], .unicodeDecodeError⟩, 0, 0, 0, false⟩]).failed = true :=
  ⟨rfl, rfl, rfl, rfl⟩

/-- Claim C4 as amended: json-field extraction is total exactly on the
record values that are present and whose bytes json.loads can decode:
there it returns a payload or absence and never raises — a caught
JSONDecodeError (malformed JSON) yields absence, traversal into a
non-object yields absence, and a record with an absent payload is simply
skipped, the loop moving on to the next record.  The two remaining inputs
abort the scan: an absent (None) value raises an uncaught TypeError, and
a present value with undecodable bytes raises an uncaught
UnicodeDecodeError. -/
theorem claim4_total_on_bytes (rv : RawValue) (field_path : String) (j : Json)
    (k : String) (ks : List String) (hash : List Nat → String) (args : ScanArgs)
    (msg : Message) (rest : List Message) (st : ScanState) :
    (rv.loads ≠ .unicodeDecodeError →
        ∃ r, get_field_from_json (some rv) field_path = .ok r)
    ∧ (rv.loads = .jsonDecodeError →
        get_field_from_json (some rv) field_path = .ok none)
    ∧ (rv.loads = .unicodeDecodeError →
        get_field_from_json (some rv) field_path = .error ())
    ∧ (j.objFields = none → getPath j (k :: ks) = none)
    ∧ (st.count < args.max_messages → msg.err = false →
        extractPayload args msg = .ok none →
        scanGo hash args (msg :: rest) st
          = scanGo hash args rest { st with pulled := st.pulled + 1 }) := by
  refine ⟨?_, ?_, ?_, ?_, ?_⟩
  · intro hu
    cases hl : rv.loads with
    | val j2 =>
      exact ⟨(get_field_parsed j2 field_path).map strToBytes,
        by simp [get_field_from_json, hl]⟩
    | jsonDecodeError => exact ⟨none, by simp [get_field_from_json, hl]⟩
    | unicodeDecodeError => exact absurd hl hu
  · intro hp
    simp [get_field_from_json, hp]
  · intro hp
    simp [get_field_from_json, hp]
  · intro ho
    simp [getPath, ho]
  · intro hc he hx
    have hne : msg.err ≠ true := by simp [he]
    simp only [scanGo, if_pos hc, if_neg hne, hx]

theorem claim4_witness :
    get_field_from_json
        (some ⟨[110, 111, 116, 32, 106, 115, 111, 110], .jsonDecodeError⟩) "user.id"
      = .ok none
    ∧ getPath (.str "s") ["a"] = none :=
  ⟨(claim4_total_on_bytes
      ⟨[110, 111, 116, 32, 106, 115, 111, 110], .jsonDecodeError⟩ "user.id"
      (.str "s") "a" [] (fun b => String.mk (b.map Char.ofNat))
      ⟨some "user.id", .value, 10, false, []⟩
      ⟨none, some ⟨[110, 111, 116, 32, 106, 115, 111, 110], .jsonDecodeError⟩,
        0, 0, 0, false⟩ []
      ⟨.mem [], 0, 0, 0, [], false⟩).2.1 rfl,
   (claim4_total_on_bytes
      ⟨[110, 111, 116, 32, 106, 115, 111, 110], .jsonDecodeError⟩ "user.id"
      (.str "s") "a" [] (fun b => String.mk (b.map Char.ofNat))
      ⟨some "user.id", .value, 10, false, []⟩
      ⟨none, some ⟨[110, 111, 116, 32, 106, 115, 111, 110], .jsonDecodeError⟩,
        0, 0, 0, false⟩ []
      ⟨.mem [], 0, 0, 0, [], false⟩).2.2.2.1 rfl⟩

/-- Claim C5: the in-memory backend and a freshly created SQLite backend
are interchangeable: every token sequence produces the same verdict
sequence on both, and a whole scan has the same observables (verdicts and
all counters) whichever backend the configuration selects. -/
theorem claim5_backend_equivalence (hash : List Nat → String) (f : Option String)
    (d : DedupBy) (m : Nat) (msgs : List Message) (ts : List String) :
    (scan hash ⟨f, d, m, true, []⟩ msgs).obs = (scan hash ⟨f, d, m, false, []⟩ msgs).obs
    ∧ (storeRun (.sqlite (openDB [])) ts).1 = (storeRun (.mem []) ts).1 := by
  constructor
  · calc (scan hash ⟨f, d, m, true, []⟩ msgs).obs
        = (scanGo hash ⟨f, d, m, true, []⟩ msgs
            ⟨.sqlite ⟨[], []⟩, 0, 0, 0, [], false⟩).obs := rfl
      _ = (scanGo hash ⟨f, d, m, true, []⟩ msgs
            ⟨.mem [], 0, 0, 0, [], false⟩).obs :=
          scanGo_mem_sqlite_obs hash ⟨f, d, m, true, []⟩ msgs [] [] 0 0 0 [] false
      _ = (scanGo hash ⟨f, d, m, false, []⟩ msgs
            ⟨.mem [], 0, 0, 0, [], false⟩).obs := by
          rw [scanGo_args_irrel hash f d m true false [] [] msgs]
      _ = (scan hash ⟨f, d, m, false, []⟩ msgs).obs := rfl
  · rw [storeRun_flags ts (.sqlite (openDB [])) []
        (fun x => by simp [Store.tokens, openDB]),
      storeRun_flags ts (.mem []) [] (fun x => by simp [Store.tokens])]

/-- Claim C6: with the persistent backend every insertion is committed
before the call returns (the committed rows always equal the seen table,
and a freshly inserted token is on disk), a token of any record processed
in one run is in the committed file afterwards and a later invocation
reopening that file classifies the token as a duplicate, and a whole scan
preserves the committed-equals-table invariant. -/
theorem claim6_persistent_durability (db : SqliteDB) (h : String)
    (hdb : db.disk = db.table) (d ts : List String) (t : String) (ht : t ∈ ts)
    (hash : List Nat → String) (args : ScanArgs) (msgs : List Message) :
    ((sqlite_check_and_insert db h).2.disk = (sqlite_check_and_insert db h).2.table
      ∧ h ∈ (sqlite_check_and_insert db h).2.disk)
    ∧ (sqlite_check_and_insert (openDB ((sqliteRun (openDB d) ts).2.disk)) t).1 = true
    ∧ storeDiskInv (scan hash args msgs).store := by
  refine ⟨⟨?_, ?_⟩, ?_, ?_⟩
  · simp only [sqlite_check_and_insert]
    by_cases hm : h ∈ db.table
    · rw [if_pos hm]; exact hdb
    · rw [if_neg hm]
  · simp only [sqlite_check_and_insert]
    by_cases hm : h ∈ db.table
    · rw [if_pos hm]; rw [hdb]; exact hm
    · rw [if_neg hm]; exact List.mem_cons_self h db.table
  · have hdisk : (sqliteRun (openDB d) ts).2.disk
        = (sqliteRun (openDB d) ts).2.table :=
      sqliteRun_disk_inv ts (openDB d) rfl
    have hmem : t ∈ (sqliteRun (openDB d) ts).2.table :=
      sqliteRun_mem ts (openDB d) t ht
    have hmem2 : t ∈ (openDB ((sqliteRun (openDB d) ts).2.disk)).table := by
      show t ∈ (sqliteRun (openDB d) ts).2.disk
      rw [hdisk]
      exact hmem
    simp only [sqlite_check_and_insert]
    rw [if_pos hmem2]
  · unfold scan
    apply scanGo_disk_inv
    cases hb : args.useSqlite <;> simp [storeDiskInv, hb, openDB]

theorem claim6_witness :
    ((sqlite_check_and_insert ⟨["x"], ["x"]⟩ "y").2.disk
        = (sqlite_check_and_insert ⟨["x"], ["x"]⟩ "y").2.table
      ∧ "y" ∈ (sqlite_check_and_insert ⟨["x"], ["x"]⟩ "y").2.disk)
    ∧ (sqlite_check_and_insert
        (openDB ((sqliteRun (openDB ["p"]) ["q"]).2.disk)) "q").1 = true :=
  ⟨(claim6_persistent_durability ⟨["x"], ["x"]⟩ "y" rfl ["p"] ["q"] "q"
      (by simp) (fun b => String.mk (b.map Char.ofNat)) ⟨none, .value, 1, true, ["p"]⟩ []).1,
   (claim6_persistent_durability ⟨["x"], ["x"]⟩ "y" rfl ["p"] ["q"] "q"
      (by simp) (fun b => String.mk (b.map Char.ofNat)) ⟨none, .value, 1, true, ["p"]⟩ []).2.1⟩

/-- Claim C7 counterexample: a budget of one and a source of three
available records, the first of which has an absent payload.  The claim
says exactly one record is pulled; the loop pulls two, because the skipped
record does not advance the budget counter. -/
theorem claim7_counterexample :
    (scan (fun b => String.mk (b.map Char.ofNat)) ⟨none, .value, 1, false, []⟩
        [⟨none, none, 0, 5, 0, false⟩,
         ⟨none, some ⟨[119, 49], .jsonDecodeError⟩, 0, 6, 0, false⟩,
         ⟨none, some ⟨[119, 50], .jsonDecodeError⟩, 0, 7, 0, false⟩]).pulled = 2
    ∧ (2 : Nat) ≠ 1 :=
  ⟨rfl, by decide⟩

/-- Claim C7 as amended: the budget is honored exactly over the records
that yield a payload: when the source holds more than max-messages
available records and every record yields a payload, exactly max-messages
records are pulled before the loop stops with the budget reached (count
equals the budget) and no failure. -/
theorem claim7_budget_exact (hash : List Nat → String) (args : ScanArgs)
    (msgs : List Message)
    (h : ∀ m ∈ msgs, m.err = false ∧ ∃ p, extractPayload args m = .ok (some p))
    (hlen : args.max_messages < msgs.length) :
    (scan hash args msgs).pulled = args.max_messages
    ∧ (scan hash args msgs).count = args.max_messages
    ∧ (scan hash args msgs).failed = false := by
  unfold scan
  obtain ⟨hp, hcnt, hfl⟩ := scanGo_present hash args msgs
    ⟨if args.useSqlite then .sqlite (openDB args.initDisk) else .mem [],
      0, 0, 0, [], false⟩ h rfl
  refine ⟨?_, ?_, hfl⟩
  · rw [hp]; simp only; omega
  · rw [hcnt]; simp only; omega

theorem claim7_witness :
    (scan (fun b => String.mk (b.map Char.ofNat)) ⟨none, .value, 2, false, []⟩
        [⟨none, some ⟨[97], .jsonDecodeError⟩, 0, 0, 0, false⟩,
         ⟨none, some ⟨[98], .jsonDecodeError⟩, 0, 1, 0, false⟩,
         ⟨none, some ⟨[97], .jsonDecodeError⟩, 0, 2, 0, false⟩]).pulled = 2 :=
  (claim7_budget_exact (fun b => String.mk (b.map Char.ofNat)) ⟨none, .value, 2, false, []⟩
    [⟨none, some ⟨[97], .jsonDecodeError⟩, 0, 0, 0, false⟩,
     ⟨none, some ⟨[98], .jsonDecodeError⟩, 0, 1, 0, false⟩,
     ⟨none, some ⟨[97], .jsonDecodeError⟩, 0, 2, 0, false⟩]
    (by
      intro m hm
      simp only [List.mem_cons, List.not_mem_nil, or_false] at hm
      rcases hm with rfl | rfl | rfl
      · exact ⟨rfl, [97], rfl⟩
      · exact ⟨rfl, [98], rfl⟩
      · exact ⟨rfl, [97], rfl⟩)
    (by decide)).1

/-- Claim C8 counterexample: a check-lag invocation with no topic.  The
claim says the configuration error is detected before any resource is
opened and before any source connection is attempted; the trace shows the
Kafka consumer client (which owns the broker connection) is constructed on
line 277 BEFORE the missing-topic check exits non-zero. -/
theorem claim8_counterexample :
    mainSetup ⟨false, false, true, none, none, none, none, none⟩
      = [.consumerCreated, .exited 1] :=
  rfl

/-- Claim C8 as amended: a missing required topic for the check-lag,
search, peek, and dedup modes makes the process exit with status 1 before
the topic subscription, before the SQLite store is opened, and before the
output file is opened — but only after the consumer client has been
constructed; the trace is exactly consumer construction followed by the
non-zero exit. -/
theorem claim8_exit_before_subscribe (a : Args) (ho : a.overview = false)
    (hl : a.list_topics = false) (ht : optTruthy a.topic = false) :
    mainSetup a = [.consumerCreated, .exited 1] := by
  simp [mainSetup, ho, hl, ht]

theorem claim8_witness :
    mainSetup ⟨false, false, false, some "needle", none, none, some "db", some "o"⟩
      = [.consumerCreated, .exited 1] :=
  claim8_exit_before_subscribe
    ⟨false, false, false, some "needle", none, none, some "db", some "o"⟩
    rfl rfl rfl

/-- Claim C9 counterexample: a dotted path that traverses successfully to
the terminal value null yields ABSENCE, not a payload: json.loads maps
null to Python None and line 50 of the source cannot tell a null value
from a missing key.  The claim lists null among the terminal kinds that
yield a payload; the code returns absence. -/
theorem claim9_counterexample :
    resolvesTo (.obj [("a", .null)]) (splitDots "a") .null
    ∧ get_field_parsed (.obj [("a", .null)]) "a" = none :=
  ⟨⟨[("a", .null)], .null, rfl, rfl, rfl⟩, rfl⟩

/-- Claim C9 as amended: whenever the record value parses as JSON and the
dotted path traverses objects successfully to a terminal value of any kind
OTHER THAN null — numbers, strings, booleans, nested objects, arrays —
extraction returns the canonical serialization of that terminal value; a
null terminal yields absence. -/
theorem claim9_terminal_kinds (j v : Json) (field_path : String)
    (h : resolvesTo j (splitDots field_path) v) (hv : v.isNull = false) :
    get_field_parsed j field_path = some (dumps v) := by
  simp only [get_field_parsed,
    getPath_resolves (splitDots field_path) j v h hv, Option.map_some']

theorem claim9_witness :
    get_field_parsed (.obj [("user", .obj [("id", .num 456)])]) "user.id"
      = some (dumps (.num 456)) :=
  claim9_terminal_kinds (.obj [("user", .obj [("id", .num 456)])]) (.num 456)
    "user.id"
    ⟨[("user", .obj [("id", .num 456)])], .obj [("id", .num 456)], rfl, rfl,
     [("id", .num 456)], .num 456, rfl, rfl, rfl⟩
    rfl

/-- Claim C10: in value mode the classification sequence and all counters
of a scan depend only on the sequence of record value bytes: two
error-free record sequences with pairwise identical values and arbitrary
keys, partitions, offsets and timestamps produce identical scan states. -/
theorem claim10_value_mode_noninterference (hash : List Nat → String)
    (args : ScanArgs) (hf : args.field = none) (hd : args.dedup_by = DedupBy.value)
    (msgs1 msgs2 : List Message)
    (hrel : List.Forall₂ (fun m1 m2 : Message =>
      m1.value.map RawValue.raw = m2.value.map RawValue.raw
        ∧ m1.err = false ∧ m2.err = false) msgs1 msgs2) :
    scan hash args msgs1 = scan hash args msgs2 := by
  unfold scan
  exact scanGo_value_obs hash args hf hd msgs1 msgs2 hrel _

theorem claim10_witness :
    scan (fun b => String.mk (b.map Char.ofNat)) ⟨none, .value, 9, false, []⟩
        [⟨some [107, 49], some ⟨[118], .jsonDecodeError⟩, 0, 0, 0, false⟩]
      = scan (fun b => String.mk (b.map Char.ofNat)) ⟨none, .value, 9, false, []⟩
        [⟨some [107, 50], some ⟨[118], .val .null⟩, 5, 7, 9, false⟩] :=
  claim10_value_mode_noninterference (fun b => String.mk (b.map Char.ofNat)) ⟨none, .value, 9, false, []⟩
    rfl rfl
    [⟨some [107, 49], some ⟨[118], .jsonDecodeError⟩, 0, 0, 0, false⟩]
    [⟨some [107, 50], some ⟨[118], .val .null⟩, 5, 7, 9, false⟩]
    (List.Forall₂.cons ⟨rfl, rfl, rfl⟩ List.Forall₂.nil)

end KafkaInspect
